import Mathlib

/-!
Verification of the "number as string" validator of the koi Joi-extension
library.  Definitions are a shallow embedding of the TypeScript source
(`numberAsStringExtension` and its helpers): strings are `List Char`, the
schema's flag state is a `ValidatorConfig` record, JavaScript numbers are
modelled as `Option ℚ` (with `none` playing the role of `NaN`), and the
single `validate` function of the source is split, exactly along its two
character-consuming loops and its subsequent if-chain, into `scan` and
`policy`.
-/

/-- Rejection reasons of the numberAsString extension, one per message key
of the source (`numberAsString.notANumber`, `numberAsString.leadingZero`,
...).  `notAString` is listed for completeness of the taxonomy; in this
embedding inputs are strings by type, so it is never produced. -/
inductive Reason
  | notAString
  | notANumber
  | leadingZero
  | negativeZero
  | noDecimals
  | decimalComma
  | decimalPoint
  | minDecimals
  | maxDecimals
  | min
  | max
  | greater
  | less
deriving DecidableEq, Repr

/-- Flag state of a numberAsString schema node: `_decimalSeparator`,
`_minDecimals`, `_maxDecimals`.  Each flag is `none` when never set (the
JavaScript value `undefined`); a numeric comparison against an unset flag
is false, which the `decGTFlag`/`decLTFlag` helpers reproduce. -/
structure ValidatorConfig where
  decimalSeparator : Option Char
  minDecimals : Option Nat
  maxDecimals : Option Nat
deriving DecidableEq, Repr

/-- The default schema node produced by `Koi.numberAsString()`: no flag set. -/
def defaultConfig : ValidatorConfig := ⟨none, none, none⟩

/-- Character class of the source regex `/[0-9]/`. -/
def isDigitChar (c : Char) : Bool := '0' ≤ c && c ≤ '9'

/-- Character class of the source regex `/[.,]/`. -/
def isSepChar (c : Char) : Bool := c = '.' || c = ','

/-- Whitespace removed by JavaScript `String.prototype.trim`, modelled for
the ASCII range (space, tab, line feed, vertical tab, form feed, carriage
return); the validator's behaviour on the further Unicode space code
points is outside the modelled fragment. -/
def isJsWhitespace (c : Char) : Bool :=
  c = ' ' || c = '\t' || c = '\n' || c = '\x0b' || c = '\x0c' || c = '\r'

/-- JavaScript `value.trim()`: drop leading and trailing whitespace. -/
def jsTrim (s : List Char) : List Char :=
  ((s.dropWhile isJsWhitespace).reverse.dropWhile isJsWhitespace).reverse

/-- First while loop of `validate`: consume digits until a separator
character, a non-digit, or the end of the string.  Returns the consumed
integer digits, the separator character if one was found, and the
remaining characters after it; `none` is the loop's notANumber exit. -/
def scanInt : List Char → Option (List Char × Option Char × List Char)
  | [] => some ([], none, [])
  | c :: cs =>
    if isSepChar c then some ([], some c, cs)
    else if isDigitChar c then
      match scanInt cs with
      | some (ip, sep, rest) => some (c :: ip, sep, rest)
      | none => none
    else none

/-- Second while loop of `validate`: every remaining character must be a
digit; `none` is the loop's notANumber exit. -/
def scanFrac : List Char → Option (List Char)
  | [] => some []
  | c :: cs =>
    if isDigitChar c then
      match scanFrac cs with
      | some fp => some (c :: fp)
      | none => none
    else none

/-- Result of the character-consuming part of `validate`: the sign, the
integer digits, the separator character if present, the fractional digits,
and the `wrongLeadingZero` flag computed before the loops. -/
structure ScanResult where
  negative : Bool
  integerPart : List Char
  separatorChar : Option Char
  fractionalPart : List Char
  wrongLeadingZero : Bool
deriving DecidableEq, Repr

/-- The `wrongLeadingZero` computation of `validate`, on the characters
after the sign:
`value[i] === '0' && i + 1 < value.length && !/[.,]/.test(value[i + 1])`. -/
def wlzOf : List Char → Bool
  | c0 :: c1 :: _ => c0 = '0' && !(isSepChar c1)
  | _ => false

/-- The part of `validate`'s scanning phase after the optional sign: the
sign-only/empty notANumber check (`i === value.length`), the
`wrongLeadingZero` computation, and the two loops.  `none` stands for the
notANumber exits. -/
def scanBody (negative : Bool) : List Char → Option ScanResult
  | [] => none
  | c0 :: tail =>
    match scanInt (c0 :: tail) with
    | none => none
    | some (ip, sep, afterSep) =>
      match scanFrac afterSep with
      | none => none
      | some fp => some ⟨negative, ip, sep, fp, wlzOf (c0 :: tail)⟩

/-- The scanning phase of `validate`: consume an optional leading `-`
(`if (value[i] === '-')`), then the rest of the scan. -/
def scan (value : List Char) : Option ScanResult :=
  match value with
  | '-' :: rest => scanBody true rest
  | rest => scanBody false rest

/-- Numeric value of a list of digit characters, most significant first. -/
def digitsVal (s : List Char) : Nat :=
  s.foldl (fun a c => 10 * a + (c.toNat - '0'.toNat)) 0

/-- JavaScript `Number` on an unsigned decimal literal: maximal digit run,
then optionally a point followed by digits only.  `none` is `NaN`.
The value of `ip.fs` is the rational `(ip * 10^|fs| + fs) / 10^|fs|`,
written with `mkRat` so that it evaluates by kernel reduction.  Modelled
for the decimal-literal fragment (no exponents, hex, or infinity, which
the validator never produces). -/
def parseUnsigned (s : List Char) : Option ℚ :=
  let ip := s.takeWhile isDigitChar
  match s.dropWhile isDigitChar with
  | [] => if ip.isEmpty then none else some (mkRat (digitsVal ip) 1)
  | c :: fs =>
    if c = '.' ∧ fs.all isDigitChar ∧ (ip ≠ [] ∨ fs ≠ []) then
      some (mkRat (digitsVal ip * 10 ^ fs.length + digitsVal fs) (10 ^ fs.length))
    else none

/-- JavaScript `Number` on a string of the shapes relevant to the
validator: the empty string coerces to `0`, a leading `-` negates, and the
rest must be an unsigned decimal literal; `none` is `NaN`. -/
def parseJsNumber (s : List Char) : Option ℚ :=
  match s with
  | [] => some 0
  | '-' :: rest =>
    match rest with
    | [] => none
    | _ => (parseUnsigned rest).map (fun q => -q)
  | _ => parseUnsigned s

/-- JavaScript `value.replace(a, b)` with a one-character pattern: replace
only the first occurrence. -/
def replaceFirst (a b : Char) : List Char → List Char
  | [] => []
  | c :: cs => if c = a then b :: cs else c :: replaceFirst a b cs

/-- The source helper `numberFromString`: if the configured separator is a
comma, replace the first comma with a point, then coerce with `Number`. -/
def numberFromString (cfg : ValidatorConfig) (value : List Char) : Option ℚ :=
  if cfg.decimalSeparator = some ',' then parseJsNumber (replaceFirst ',' '.' value)
  else parseJsNumber value

/-- JavaScript `decimals > flag` where the flag may be `undefined`
(`none`): a comparison against `undefined` is false. -/
def decGTFlag (d : Nat) : Option Nat → Bool
  | some m => d > m
  | none => false

/-- JavaScript `decimals < flag` where the flag may be `undefined`. -/
def decLTFlag (d : Nat) : Option Nat → Bool
  | some m => d < m
  | none => false

/-- The checks of `validate`'s if-chain that run after (or in the absence
of) the separator block, in source order: leadingZero, negativeZero,
maxDecimals, minDecimals, and finally acceptance. -/
def policyTail (cfg : ValidatorConfig) (value : List Char) (r : ScanResult) :
    Except Reason (List Char) :=
  if r.wrongLeadingZero then Except.error Reason.leadingZero
  else if r.negative = true ∧ numberFromString cfg value = some 0 then
    Except.error Reason.negativeZero
  else if decGTFlag r.fractionalPart.length cfg.maxDecimals then
    Except.error Reason.maxDecimals
  else if decLTFlag r.fractionalPart.length cfg.minDecimals then
    Except.error Reason.minDecimals
  else Except.ok value

/-- The if-chain of `validate` after the loops, in source order: the
defensive `decimals === 0` notANumber check, then the separator block
(unset flag → noDecimals; comma flag and other separator → decimalComma;
point flag and other separator → decimalPoint), then the fall-through
checks of `policyTail`. -/
def policy (cfg : ValidatorConfig) (value : List Char) (r : ScanResult) :
    Except Reason (List Char) :=
  match r.separatorChar with
  | none => policyTail cfg value r
  | some sc =>
    if r.fractionalPart.length = 0 then Except.error Reason.notANumber
    else
      match cfg.decimalSeparator with
      | none => Except.error Reason.noDecimals
      | some flag =>
        if flag = ',' ∧ sc ≠ flag then Except.error Reason.decimalComma
        else if flag = '.' ∧ sc ≠ flag then Except.error Reason.decimalPoint
        else policyTail cfg value r

/-- The `validate` function of the numberAsString extension on string
inputs: trim when the convert preference is set, scan, then apply the
policy if-chain; each `none` of the scanner is a notANumber error. -/
def validateNAS (cfg : ValidatorConfig) (convert : Bool) (input : List Char) :
    Except Reason (List Char) :=
  let value := if convert then jsTrim input else input
  match scan value with
  | none => Except.error Reason.notANumber
  | some r => policy cfg value r

/-- The `min` rule: pass iff the coerced value is at least the limit
(`numberFromString(value, helpers) >= args.limit`; false on `NaN`). -/
def minRule (limit : ℚ) (cfg : ValidatorConfig) (value : List Char) :
    Except Reason (List Char) :=
  match numberFromString cfg value with
  | some q => if q ≥ limit then Except.ok value else Except.error Reason.min
  | none => Except.error Reason.min

/-- The `max` rule: pass iff the coerced value is at most the limit. -/
def maxRule (limit : ℚ) (cfg : ValidatorConfig) (value : List Char) :
    Except Reason (List Char) :=
  match numberFromString cfg value with
  | some q => if q ≤ limit then Except.ok value else Except.error Reason.max
  | none => Except.error Reason.max

/-- The `greater` rule: pass iff the coerced value is strictly above the
limit. -/
def greaterRule (limit : ℚ) (cfg : ValidatorConfig) (value : List Char) :
    Except Reason (List Char) :=
  match numberFromString cfg value with
  | some q => if q > limit then Except.ok value else Except.error Reason.greater
  | none => Except.error Reason.greater

/-- The `less` rule: pass iff the coerced value is strictly below the
limit. -/
def lessRule (limit : ℚ) (cfg : ValidatorConfig) (value : List Char) :
    Except Reason (List Char) :=
  match numberFromString cfg value with
  | some q => if q < limit then Except.ok value else Except.error Reason.less
  | none => Except.error Reason.less

/-- The `decimalSeparator` configuration rule:
`$_setFlag('_decimalSeparator', value)`. -/
def setDecimalSeparator (c : Char) (cfg : ValidatorConfig) : ValidatorConfig :=
  { cfg with decimalSeparator := some c }

/-- The `minDecimals` configuration rule: `$_setFlag('_minDecimals', digits)`. -/
def setMinDecimals (n : Nat) (cfg : ValidatorConfig) : ValidatorConfig :=
  { cfg with minDecimals := some n }

/-- The `maxDecimals` configuration rule: `$_setFlag('_maxDecimals', digits)`. -/
def setMaxDecimals (n : Nat) (cfg : ValidatorConfig) : ValidatorConfig :=
  { cfg with maxDecimals := some n }

/-- The `decimal` rule of the newer source variant, which chains
`decimalSeparator(decimalSeparator).minDecimals(digits).maxDecimals(digits)`. -/
def decimalChained (c : Char) (n : Nat) (cfg : ValidatorConfig) : ValidatorConfig :=
  setMaxDecimals n (setMinDecimals n (setDecimalSeparator c cfg))

/-- The `decimal` rule of the older source variant, whose setup writes the
three flags `_decimalSeparator`, `_minDecimals`, `_maxDecimals` directly. -/
def decimalSetup (c : Char) (n : Nat) (cfg : ValidatorConfig) : ValidatorConfig :=
  { cfg with decimalSeparator := some c, minDecimals := some n, maxDecimals := some n }

/-- Characters of a scanned string after its optional sign: the integer
digits, then the separator and fractional digits when present. -/
def bodyOf (r : ScanResult) : List Char :=
  r.integerPart ++
    (match r.separatorChar with
     | some sc => sc :: r.fractionalPart
     | none => [])

/-- Condition of §4.2 step 2a of the specification, stated independently
of the other checks: a separator is present but none is configured. -/
def condNoDecimals (cfg : ValidatorConfig) (r : ScanResult) : Bool :=
  r.separatorChar.isSome && cfg.decimalSeparator.isNone

/-- Condition of §4.2 step 2b of the specification: a separator is present
and differs from the configured one. -/
def condWrongSeparator (cfg : ValidatorConfig) (r : ScanResult) : Bool :=
  match r.separatorChar, cfg.decimalSeparator with
  | some sc, some flag => decide (sc ≠ flag)
  | _, _ => false

/-- Condition of §4.2 step 3 of the specification: the leading-zero flag. -/
def condLeadingZero (r : ScanResult) : Bool := r.wrongLeadingZero

/-- Condition of §4.2 step 4 of the specification: negative sign and a
coerced value of exactly zero. -/
def condNegativeZero (cfg : ValidatorConfig) (value : List Char) (r : ScanResult) : Bool :=
  r.negative && decide (numberFromString cfg value = some 0)

/-- Condition of §4.2 step 5 of the specification: more fractional digits
than the configured maximum. -/
def condMaxExceeded (cfg : ValidatorConfig) (r : ScanResult) : Bool :=
  decGTFlag r.fractionalPart.length cfg.maxDecimals

/-- Condition of §4.2 step 6 of the specification: fewer fractional digits
than the configured minimum. -/
def condMinNotMet (cfg : ValidatorConfig) (r : ScanResult) : Bool :=
  decLTFlag r.fractionalPart.length cfg.minDecimals

/-- The wrong-separator reason a configuration produces: decimalComma when
a comma is required, decimalPoint when a point is required. -/
def wrongSeparatorReason (cfg : ValidatorConfig) : Reason :=
  if cfg.decimalSeparator = some ',' then Reason.decimalComma else Reason.decimalPoint

/-- First matching entry of an ordered list of checks. -/
def firstHit : List (Bool × Reason) → Option Reason
  | [] => none
  | (b, reason) :: rest => if b then some reason else firstHit rest

/-- The fixed evaluation order of the format-policy checks, as the
specification lists them: separator-presence checks (no decimals allowed,
wrong separator), then leading zero, negative zero, max decimals
exceeded, min decimals not met. -/
def orderedChecks (cfg : ValidatorConfig) (value : List Char) (r : ScanResult) :
    List (Bool × Reason) :=
  [(condNoDecimals cfg r, Reason.noDecimals),
   (condWrongSeparator cfg r, wrongSeparatorReason cfg),
   (condLeadingZero r, Reason.leadingZero),
   (condNegativeZero cfg value r, Reason.negativeZero),
   (condMaxExceeded cfg r, Reason.maxDecimals),
   (condMinNotMet cfg r, Reason.minDecimals)]

/-- Validation outcome determined by the first matching check of an
ordered list: the first reason whose condition holds, or acceptance. -/
def firstHitResult (checks : List (Bool × Reason)) (value : List Char) :
    Except Reason (List Char) :=
  match firstHit checks with
  | some reason => Except.error reason
  | none => Except.ok value

theorem digit_not_sep {c : Char} (h : isDigitChar c = true) : isSepChar c = false := by
  cases hx : isSepChar c
  · rfl
  · simp only [isSepChar, Bool.or_eq_true, decide_eq_true_eq] at hx
    simp only [isDigitChar, Bool.and_eq_true, decide_eq_true_eq] at h
    rcases hx with rfl | rfl
    · exact absurd h (by decide)
    · exact absurd h (by decide)

theorem digit_ne_comma {c : Char} (h : isDigitChar c = true) : c ≠ ',' := by
  rintro rfl
  exact absurd h (by decide)

theorem sep_ne_zero {c : Char} (h : isSepChar c = true) : c ≠ '0' := by
  simp only [isSepChar, Bool.or_eq_true, decide_eq_true_eq] at h
  rcases h with rfl | rfl <;> decide

theorem scanInt_sound (cs : List Char) : ∀ ip sep rest,
    scanInt cs = some (ip, sep, rest) →
    (∀ c ∈ ip, isDigitChar c = true) ∧
    ((∃ sc, sep = some sc ∧ isSepChar sc = true ∧ cs = ip ++ sc :: rest) ∨
      (sep = none ∧ rest = [] ∧ cs = ip)) := by
  induction cs with
  | nil =>
    intro ip sep rest h
    simp only [scanInt] at h
    injection h with h'
    injection h' with h1 h'
    injection h' with h2 h3
    subst h1; subst h2; subst h3
    exact ⟨by simp, Or.inr ⟨rfl, rfl, rfl⟩⟩
  | cons c cs ih =>
    intro ip sep rest h
    by_cases hs : isSepChar c = true
    · simp only [scanInt] at h
      rw [if_pos hs] at h
      injection h with h'
      injection h' with h1 h'
      injection h' with h2 h3
      subst h1; subst h2; subst h3
      exact ⟨by simp, Or.inl ⟨c, rfl, hs, by simp⟩⟩
    · by_cases hd : isDigitChar c = true
      · simp only [scanInt] at h
        rw [if_neg hs, if_pos hd] at h
        cases hrec : scanInt cs with
        | none => rw [hrec] at h; cases h
        | some triple =>
          obtain ⟨ip', sep', rest'⟩ := triple
          rw [hrec] at h
          injection h with h'
          injection h' with h1 h'
          injection h' with h2 h3
          subst h1; subst h2; subst h3
          obtain ⟨ihd, ihdisj⟩ := ih ip' sep' rest' hrec
          refine ⟨?_, ?_⟩
          · intro x hx
            rcases List.mem_cons.mp hx with rfl | hx
            · exact hd
            · exact ihd x hx
          · rcases ihdisj with ⟨sc, rfl, hsc, hcs⟩ | ⟨rfl, rfl, hcs⟩
            · exact Or.inl ⟨sc, rfl, hsc, by rw [hcs]; rfl⟩
            · exact Or.inr ⟨rfl, rfl, by rw [hcs]⟩
      · simp only [scanInt] at h
        rw [if_neg hs, if_neg hd] at h
        simp at h

theorem scanFrac_sound (cs : List Char) : ∀ fp, scanFrac cs = some fp →
    fp = cs ∧ ∀ c ∈ cs, isDigitChar c = true := by
  induction cs with
  | nil =>
    intro fp h
    simp only [scanFrac] at h
    injection h with h'
    subst h'
    exact ⟨rfl, by simp⟩
  | cons c cs ih =>
    intro fp h
    by_cases hd : isDigitChar c = true
    · simp only [scanFrac] at h
      rw [if_pos hd] at h
      cases hrec : scanFrac cs with
      | none => rw [hrec] at h; cases h
      | some fp' =>
        rw [hrec] at h
        injection h with h'
        subst h'
        obtain ⟨h1, h2⟩ := ih fp' hrec
        subst h1
        refine ⟨rfl, ?_⟩
        intro x hx
        rcases List.mem_cons.mp hx with rfl | hx
        · exact hd
        · exact h2 x hx
    · simp only [scanFrac] at h
      rw [if_neg hd] at h
      simp at h

theorem scanBody_sound (neg : Bool) (rest : List Char) (r : ScanResult)
    (h : scanBody neg rest = some r) :
    r.negative = neg ∧
    rest = bodyOf r ∧
    rest ≠ [] ∧
    (∀ c ∈ r.integerPart, isDigitChar c = true) ∧
    (∀ c ∈ r.fractionalPart, isDigitChar c = true) ∧
    ((∃ sc, r.separatorChar = some sc ∧ isSepChar sc = true) ∨
      (r.separatorChar = none ∧ r.fractionalPart = [])) ∧
    r.wrongLeadingZero = wlzOf rest := by
  cases rest with
  | nil => cases h
  | cons c0 tail =>
    simp only [scanBody] at h
    cases hsi : scanInt (c0 :: tail) with
    | none => rw [hsi] at h; cases h
    | some triple =>
      obtain ⟨ip, sep, afterSep⟩ := triple
      rw [hsi] at h
      dsimp only at h
      cases hsf : scanFrac afterSep with
      | none => rw [hsf] at h; cases h
      | some fp =>
        rw [hsf] at h
        dsimp only at h
        injection h with h'
        subst h'
        obtain ⟨hdig, hdisj⟩ := scanInt_sound (c0 :: tail) ip sep afterSep hsi
        obtain ⟨hfp_eq, hfp_dig⟩ := scanFrac_sound afterSep fp hsf
        subst hfp_eq
        refine ⟨rfl, ?_, List.cons_ne_nil c0 tail, hdig, hfp_dig, ?_, ?_⟩
        · rcases hdisj with ⟨sc, rfl, hsc, hcs⟩ | ⟨rfl, hrest, hcs⟩
          · simpa [bodyOf] using hcs
          · subst hrest
            simpa [bodyOf] using hcs
        · rcases hdisj with ⟨sc, rfl, hsc, hcs⟩ | ⟨rfl, hrest, hcs⟩
          · exact Or.inl ⟨sc, rfl, hsc⟩
          · exact Or.inr ⟨rfl, hrest⟩
        · rfl

theorem scan_cases (v : List Char) (r : ScanResult) (h : scan v = some r) :
    (∃ rest, v = '-' :: rest ∧ scanBody true rest = some r) ∨
    (v.head? ≠ some '-' ∧ scanBody false v = some r) := by
  unfold scan at h
  split at h
  · next rest => exact Or.inl ⟨rest, rfl, h⟩
  · next hne =>
    refine Or.inr ⟨?_, h⟩
    intro hx
    cases v with
    | nil => cases hx
    | cons c cs =>
      injection hx with hx
      subst hx
      exact hne cs rfl

theorem scan_sound (v : List Char) (r : ScanResult) (h : scan v = some r) :
    v = (if r.negative then '-' :: bodyOf r else bodyOf r) ∧
    bodyOf r ≠ [] ∧
    (∀ c ∈ r.integerPart, isDigitChar c = true) ∧
    (∀ c ∈ r.fractionalPart, isDigitChar c = true) ∧
    ((∃ sc, r.separatorChar = some sc ∧ isSepChar sc = true) ∨
      (r.separatorChar = none ∧ r.fractionalPart = [])) := by
  rcases scan_cases v r h with ⟨rest, rfl, hb⟩ | ⟨hne, hb⟩
  · obtain ⟨hneg, hrest, hnn, hdig, hfd, hdisj, _⟩ := scanBody_sound true rest r hb
    rw [if_pos hneg]
    exact ⟨by rw [hrest], by rw [← hrest]; exact hnn, hdig, hfd, hdisj⟩
  · obtain ⟨hneg, hrest, hnn, hdig, hfd, hdisj, _⟩ := scanBody_sound false v r hb
    rw [if_neg (by simp [hneg])]
    exact ⟨hrest, by rw [← hrest]; exact hnn, hdig, hfd, hdisj⟩

/-- C7: for every input string that the scanner processes without a
not-a-number failure, the `wrongLeadingZero` flag is true exactly when the
integer part has length at least 2 and its first character is '0'.  The
right-hand side mentions only the integer part, so the flag is independent
of the sign and of any fractional part. -/
theorem wrongLeadingZero_characterization (v : List Char) (r : ScanResult)
    (h : scan v = some r) :
    r.wrongLeadingZero = true ↔
      2 ≤ r.integerPart.length ∧ r.integerPart.head? = some '0' := by
  have hb : ∃ neg rest, scanBody neg rest = some r := by
    rcases scan_cases v r h with ⟨rest, _, hb⟩ | ⟨_, hb⟩
    · exact ⟨true, rest, hb⟩
    · exact ⟨false, v, hb⟩
  obtain ⟨neg, rest, hb⟩ := hb
  obtain ⟨hneg, hrest, hnn, hdig, hfd, hdisj, hwlz⟩ := scanBody_sound neg rest r hb
  subst hrest
  obtain ⟨rneg, rip, rsep, rfp, rwlz⟩ := r
  dsimp only at hwlz hdig hdisj hnn ⊢
  cases rip with
  | nil =>
    rcases hdisj with ⟨sc, rfl, hsc⟩ | ⟨rfl, rfl⟩
    · simp only [bodyOf, List.nil_append] at hwlz hnn
      cases rfp with
      | nil =>
        rw [hwlz]
        simp [wlzOf]
      | cons c1 t =>
        rw [hwlz]
        simp [wlzOf, sep_ne_zero hsc]
    · simp [bodyOf] at hnn
  | cons d0 ip1 =>
    cases ip1 with
    | nil =>
      rcases hdisj with ⟨sc, rfl, hsc⟩ | ⟨rfl, rfl⟩
      · simp only [bodyOf, List.cons_append, List.nil_append] at hwlz
        rw [hwlz]
        simp [wlzOf, hsc]
      · simp only [bodyOf, List.append_nil] at hwlz
        rw [hwlz]
        simp [wlzOf]
    | cons d1 ip2 =>
      have hd1 : isDigitChar d1 = true := hdig d1 (by simp)
      have hns : isSepChar d1 = false := digit_not_sep hd1
      rcases hdisj with ⟨sc, rfl, hsc⟩ | ⟨rfl, rfl⟩
      · simp only [bodyOf, List.cons_append] at hwlz
        rw [hwlz]
        simp only [wlzOf, hns, Bool.not_false, Bool.and_true, decide_eq_true_eq,
          List.length_cons, List.head?_cons, Option.some.injEq]
        constructor
        · intro h0
          exact ⟨by omega, h0⟩
        · intro h0
          exact h0.2
      · simp only [bodyOf, List.append_nil] at hwlz
        rw [hwlz]
        simp only [wlzOf, hns, Bool.not_false, Bool.and_true, decide_eq_true_eq,
          List.length_cons, List.head?_cons, Option.some.injEq]
        constructor
        · intro h0
          exact ⟨by omega, h0⟩
        · intro h0
          exact h0.2

/-- Witness for C7 at the concrete input "-00.1": the scanner succeeds and
the characterization applies. -/
theorem wrongLeadingZero_characterization_witness :
    (⟨true, ['0', '0'], some '.', ['1'], true⟩ : ScanResult).wrongLeadingZero = true ↔
      2 ≤ (⟨true, ['0', '0'], some '.', ['1'], true⟩ : ScanResult).integerPart.length ∧
        (⟨true, ['0', '0'], some '.', ['1'], true⟩ : ScanResult).integerPart.head? = some '0' :=
  wrongLeadingZero_characterization "-00.1".toList ⟨true, ['0', '0'], some '.', ['1'], true⟩
    (by decide)

/-- C2 counterexample: with no configured separator, "-0.0" is rejected
with the no-decimals reason, not the negative-zero reason, so the claim
that all four strings are rejected as negative-zero under every
configuration fails. -/
theorem negativeZero_claim_counterexample :
    validateNAS defaultConfig false "-0.0".toList = Except.error Reason.noDecimals ∧
    Reason.noDecimals ≠ Reason.negativeZero :=
  ⟨rfl, by decide⟩

/-- C2 (amended): "-0" is rejected as negative-zero under all three
separator configurations; "-0.0", "-.0" and "-.00" are rejected as
negative-zero when the configured separator is '.', as no-decimals when no
separator is configured, and as wrong-separator (decimalComma) when the
configured separator is ','.  All of this holds for any decimal-count
flags and independently of the convert option. -/
theorem negativeZero_by_configuration (minD maxD : Option Nat) (convert : Bool) :
    (validateNAS ⟨none, minD, maxD⟩ convert "-0".toList = Except.error Reason.negativeZero ∧
     validateNAS ⟨some '.', minD, maxD⟩ convert "-0".toList = Except.error Reason.negativeZero ∧
     validateNAS ⟨some ',', minD, maxD⟩ convert "-0".toList = Except.error Reason.negativeZero) ∧
    (validateNAS ⟨some '.', minD, maxD⟩ convert "-0.0".toList = Except.error Reason.negativeZero ∧
     validateNAS ⟨some '.', minD, maxD⟩ convert "-.0".toList = Except.error Reason.negativeZero ∧
     validateNAS ⟨some '.', minD, maxD⟩ convert "-.00".toList = Except.error Reason.negativeZero) ∧
    (validateNAS ⟨none, minD, maxD⟩ convert "-0.0".toList = Except.error Reason.noDecimals ∧
     validateNAS ⟨none, minD, maxD⟩ convert "-.0".toList = Except.error Reason.noDecimals ∧
     validateNAS ⟨none, minD, maxD⟩ convert "-.00".toList = Except.error Reason.noDecimals) ∧
    (validateNAS ⟨some ',', minD, maxD⟩ convert "-0.0".toList = Except.error Reason.decimalComma ∧
     validateNAS ⟨some ',', minD, maxD⟩ convert "-.0".toList = Except.error Reason.decimalComma ∧
     validateNAS ⟨some ',', minD, maxD⟩ convert "-.00".toList = Except.error Reason.decimalComma) := by
  cases convert <;>
    exact ⟨⟨rfl, rfl, rfl⟩, ⟨rfl, rfl, rfl⟩, ⟨rfl, rfl, rfl⟩, ⟨rfl, rfl, rfl⟩⟩

/-- C3: with the decimal separator configured as '.' and the decimal-count
flags at their defaults, "0", "0.0", ".0" and "1.2" are accepted, "4,2" is
rejected with the wrong-separator reason (decimalPoint), "0." and "." are
rejected as not-a-number, and "00.01" is rejected as leading-zero. -/
theorem decimalPoint_configured_examples (convert : Bool) :
    validateNAS ⟨some '.', none, none⟩ convert "0".toList = Except.ok "0".toList ∧
    validateNAS ⟨some '.', none, none⟩ convert "0.0".toList = Except.ok "0.0".toList ∧
    validateNAS ⟨some '.', none, none⟩ convert ".0".toList = Except.ok ".0".toList ∧
    validateNAS ⟨some '.', none, none⟩ convert "1.2".toList = Except.ok "1.2".toList ∧
    validateNAS ⟨some '.', none, none⟩ convert "4,2".toList = Except.error Reason.decimalPoint ∧
    validateNAS ⟨some '.', none, none⟩ convert "0.".toList = Except.error Reason.notANumber ∧
    validateNAS ⟨some '.', none, none⟩ convert ".".toList = Except.error Reason.notANumber ∧
    validateNAS ⟨some '.', none, none⟩ convert "00.01".toList = Except.error Reason.leadingZero := by
  cases convert <;> exact ⟨rfl, rfl, rfl, rfl, rfl, rfl, rfl, rfl⟩

/-- C4 counterexample: the input ".", which contains a separator
character, is rejected as not-a-number, not with the no-decimals reason. -/
theorem noDecimals_claim_counterexample :
    ('.' ∈ ".".toList ∨ ',' ∈ ".".toList) ∧
    validateNAS defaultConfig false ".".toList = Except.error Reason.notANumber ∧
    Reason.notANumber ≠ Reason.noDecimals :=
  ⟨by decide, rfl, by decide⟩

/-- C6: the `decimal(sep, digits)` rule is exactly equivalent to chaining
`decimalSeparator(sep)`, `minDecimals(digits)`, `maxDecimals(digits)`:
both source variants produce the same flag state as the chain, so the
resulting validators accept the same strings and report the same
reasons. -/
theorem decimal_equals_chained (c : Char) (n : Nat) (cfg : ValidatorConfig)
    (convert : Bool) (input : List Char) :
    decimalSetup c n cfg = setMaxDecimals n (setMinDecimals n (setDecimalSeparator c cfg)) ∧
    decimalChained c n cfg = setMaxDecimals n (setMinDecimals n (setDecimalSeparator c cfg)) ∧
    validateNAS (decimalSetup c n cfg) convert input =
      validateNAS (decimalChained c n cfg) convert input :=
  ⟨rfl, rfl, rfl⟩

/-- C9: with the convert option enabled, the whitespace-wrapped input
"\t 42\r\n" is accepted and the output is the trimmed string "42"; with
convert disabled, the same input is rejected as not-a-number. -/
theorem convert_trims_whitespace :
    validateNAS defaultConfig true "\t 42\r\n".toList = Except.ok "42".toList ∧
    validateNAS defaultConfig false "\t 42\r\n".toList = Except.error Reason.notANumber :=
  ⟨rfl, rfl⟩

theorem policyTail_ok_inv (cfg : ValidatorConfig) (w : List Char) (r : ScanResult)
    (v : List Char) (h : policyTail cfg w r = Except.ok v) :
    v = w ∧
    decGTFlag r.fractionalPart.length cfg.maxDecimals = false ∧
    decLTFlag r.fractionalPart.length cfg.minDecimals = false := by
  unfold policyTail at h
  split_ifs at h with hw hn hg hl
  injection h with h'
  refine ⟨h'.symm, ?_, ?_⟩
  · simpa using hg
  · simpa using hl

theorem policy_ok_inv (cfg : ValidatorConfig) (w : List Char) (r : ScanResult)
    (v : List Char) (h : policy cfg w r = Except.ok v) :
    v = w ∧
    decGTFlag r.fractionalPart.length cfg.maxDecimals = false ∧
    decLTFlag r.fractionalPart.length cfg.minDecimals = false ∧
    (∀ sc, r.separatorChar = some sc →
      r.fractionalPart.length ≠ 0 ∧
      ∃ flag, cfg.decimalSeparator = some flag ∧
        ¬(flag = ',' ∧ sc ≠ flag) ∧ ¬(flag = '.' ∧ sc ≠ flag)) := by
  cases hsep : r.separatorChar with
  | none =>
    simp only [policy, hsep] at h
    obtain ⟨h1, h2, h3⟩ := policyTail_ok_inv cfg w r v h
    refine ⟨h1, h2, h3, ?_⟩
    intro sc hx
    exact Option.noConfusion hx
  | some sc =>
    simp only [policy, hsep] at h
    by_cases hz : r.fractionalPart.length = 0
    · rw [if_pos hz] at h
      exact Except.noConfusion h
    · rw [if_neg hz] at h
      cases hflag : cfg.decimalSeparator with
      | none =>
        rw [hflag] at h
        exact Except.noConfusion h
      | some flag =>
        rw [hflag] at h
        dsimp only at h
        by_cases hc : flag = ',' ∧ sc ≠ flag
        · rw [if_pos hc] at h
          exact Except.noConfusion h
        · rw [if_neg hc] at h
          by_cases hp : flag = '.' ∧ sc ≠ flag
          · rw [if_pos hp] at h
            exact Except.noConfusion h
          · rw [if_neg hp] at h
            obtain ⟨h1, h2, h3⟩ := policyTail_ok_inv cfg w r v h
            refine ⟨h1, h2, h3, ?_⟩
            intro sc' hx
            injection hx with hx'
            subst hx'
            exact ⟨hz, flag, rfl, hc, hp⟩

theorem validateNAS_ok_inv (cfg : ValidatorConfig) (convert : Bool) (input : List Char)
    (v : List Char) (h : validateNAS cfg convert input = Except.ok v) :
    ∃ r, scan v = some r ∧ policy cfg v r = Except.ok v := by
  simp only [validateNAS] at h
  cases hscan : scan (if convert then jsTrim input else input) with
  | none => rw [hscan] at h; exact Except.noConfusion h
  | some r =>
    rw [hscan] at h
    have hv := (policy_ok_inv cfg _ r v h).1
    subst hv
    exact ⟨r, hscan, h⟩

/-- C8: a configuration whose minimum decimal count strictly exceeds its
maximum rejects every input: any input that survives the earlier checks
has a fractional-digit count that violates one of the two bounds. -/
theorem minGtMax_rejects_all (cfg : ValidatorConfig) (m M : Nat)
    (hm : cfg.minDecimals = some m) (hM : cfg.maxDecimals = some M) (hlt : M < m)
    (convert : Bool) (input : List Char) :
    ∃ reason, validateNAS cfg convert input = Except.error reason := by
  cases hres : validateNAS cfg convert input with
  | error e => exact ⟨e, rfl⟩
  | ok v =>
    exfalso
    obtain ⟨r, hscan, hpol⟩ := validateNAS_ok_inv cfg convert input v hres
    obtain ⟨-, hgt, hlt2, -⟩ := policy_ok_inv cfg v r v hpol
    rw [hM] at hgt
    rw [hm] at hlt2
    simp only [decGTFlag, decLTFlag, decide_eq_false_iff_not, Nat.not_lt] at hgt hlt2
    omega

/-- Witness for C8: with minDecimals 2 and maxDecimals 1 every input is
rejected, in particular "7". -/
theorem minGtMax_rejects_all_witness :
    ∃ reason, validateNAS ⟨none, some 2, some 1⟩ false "7".toList = Except.error reason :=
  minGtMax_rejects_all ⟨none, some 2, some 1⟩ 2 1 rfl rfl (by decide) false "7".toList

theorem sep_not_ws {c : Char} (h : isSepChar c = true) : isJsWhitespace c = false := by
  simp only [isSepChar, Bool.or_eq_true, decide_eq_true_eq] at h
  rcases h with rfl | rfl <;> decide

theorem mem_dropWhile_of_not_ws {c : Char} (l : List Char)
    (hc : isJsWhitespace c = false) (h : c ∈ l) : c ∈ l.dropWhile isJsWhitespace := by
  induction l with
  | nil => cases h
  | cons a t ih =>
    by_cases ha : isJsWhitespace a = true
    · rw [List.dropWhile_cons_of_pos ha]
      rcases List.mem_cons.mp h with rfl | h'
      · rw [hc] at ha
        cases ha
      · exact ih h'
    · rw [List.dropWhile_cons_of_neg ha]
      exact h

theorem mem_jsTrim {c : Char} (input : List Char) (hc : isJsWhitespace c = false)
    (h : c ∈ input) : c ∈ jsTrim input := by
  unfold jsTrim
  rw [List.mem_reverse]
  apply mem_dropWhile_of_not_ws _ hc
  rw [List.mem_reverse]
  exact mem_dropWhile_of_not_ws _ hc h

theorem scan_sep_of_mem (v : List Char) (r : ScanResult) (h : scan v = some r)
    (c : Char) (hc : isSepChar c = true) (hm : c ∈ v) :
    r.separatorChar.isSome = true := by
  obtain ⟨hv, hnn, hdig, hfd, hdisj⟩ := scan_sound v r h
  rcases hdisj with ⟨sc, hsep, -⟩ | ⟨hsep, hfp⟩
  · rw [hsep]
    rfl
  · exfalso
    have hbody : bodyOf r = r.integerPart := by
      unfold bodyOf
      rw [hsep]
      exact List.append_nil _
    rw [hv, hbody] at hm
    have hmem : c = '-' ∨ c ∈ r.integerPart := by
      cases hneg : r.negative
      · rw [hneg] at hm
        rw [if_neg (by simp)] at hm
        exact Or.inr hm
      · rw [hneg] at hm
        rw [if_pos rfl] at hm
        rcases List.mem_cons.mp hm with rfl | h'
        · exact Or.inl rfl
        · exact Or.inr h'
    rcases hmem with rfl | hmem
    · exact absurd hc (by decide)
    · rw [digit_not_sep (hdig c hmem)] at hc
      cases hc

theorem policy_noflag_sep (cfg : ValidatorConfig) (hflag : cfg.decimalSeparator = none)
    (w : List Char) (r : ScanResult) (hsep : r.separatorChar.isSome = true) :
    policy cfg w r = Except.error Reason.noDecimals ∨
    policy cfg w r = Except.error Reason.notANumber := by
  cases hs : r.separatorChar with
  | none =>
    rw [hs] at hsep
    cases hsep
  | some sc =>
    simp only [policy, hs]
    by_cases hz : r.fractionalPart.length = 0
    · rw [if_pos hz]
      exact Or.inr rfl
    · rw [if_neg hz, hflag]
      exact Or.inl rfl

/-- C4 (amended): with no configured decimal separator, every input string
containing '.' or ',' is rejected, and the reported reason is determined:
noDecimals exactly when the (possibly trimmed) string scans as a
well-formed number whose separator carries at least one fractional digit,
and notANumber otherwise (the scan fails, as for "a,b", or the fractional
part is empty, as for "." and "0.").  Under the default configuration
"42" is accepted, and "4.2" is rejected with the noDecimals reason for
any decimal-count flags. -/
theorem noSeparatorConfigured_behavior :
    (∀ (minD maxD : Option Nat) (convert : Bool) (input : List Char),
        (∃ c ∈ input, isSepChar c = true) →
        validateNAS ⟨none, minD, maxD⟩ convert input =
          Except.error
            (match scan (if convert then jsTrim input else input) with
             | some r =>
               if r.fractionalPart = [] then Reason.notANumber else Reason.noDecimals
             | none => Reason.notANumber)) ∧
    (∀ convert : Bool,
        validateNAS defaultConfig convert "42".toList = Except.ok "42".toList) ∧
    (∀ (minD maxD : Option Nat) (convert : Bool),
        validateNAS ⟨none, minD, maxD⟩ convert "4.2".toList = Except.error Reason.noDecimals) := by
  refine ⟨?_, ?_, ?_⟩
  · intro minD maxD convert input hex
    obtain ⟨c, hm, hc⟩ := hex
    have hcw : c ∈ (if convert then jsTrim input else input) := by
      cases convert with
      | false => simpa using hm
      | true => simpa using mem_jsTrim input (sep_not_ws hc) hm
    simp only [validateNAS]
    cases hscan : scan (if convert then jsTrim input else input) with
    | none => rfl
    | some r =>
      dsimp only
      have hsome : r.separatorChar.isSome = true := scan_sep_of_mem _ r hscan c hc hcw
      cases hs : r.separatorChar with
      | none =>
        rw [hs] at hsome
        cases hsome
      | some sc =>
        simp only [policy, hs]
        by_cases hz : r.fractionalPart = []
        · have hzl : r.fractionalPart.length = 0 := by
            rw [hz]
            rfl
          rw [if_pos hzl, if_pos hz]
        · have hzl : ¬(r.fractionalPart.length = 0) := by
            intro hx
            exact hz (List.length_eq_zero.mp hx)
          rw [if_neg hzl, if_neg hz]
  · intro convert
    cases convert <;> exact rfl
  · intro minD maxD convert
    cases convert <;> exact rfl

/-- Witness for C4 at the concrete input "1,5": it contains a separator
character, scans with one fractional digit, and is rejected with the
noDecimals reason. -/
theorem noSeparatorConfigured_behavior_witness :
    validateNAS ⟨none, none, none⟩ false "1,5".toList = Except.error Reason.noDecimals := by
  have h := noSeparatorConfigured_behavior.1 none none false "1,5".toList
    ⟨',', by decide, by decide⟩
  rw [h]
  rfl

theorem digit_ne_dash {c : Char} (h : isDigitChar c = true) : c ≠ '-' := by
  rintro rfl
  exact absurd h (by decide)

theorem split_digits_point (ip fp : List Char)
    (hip : ∀ c ∈ ip, isDigitChar c = true) :
    (ip ++ '.' :: fp).takeWhile isDigitChar = ip ∧
    (ip ++ '.' :: fp).dropWhile isDigitChar = '.' :: fp := by
  induction ip with
  | nil =>
    have hpd : isDigitChar '.' = false := by decide
    constructor
    · simp [List.takeWhile_cons, hpd]
    · simp [List.dropWhile_cons, hpd]
  | cons a t ih =>
    have ha : isDigitChar a = true := hip a (by simp)
    obtain ⟨ih1, ih2⟩ := ih (fun c hc => hip c (by simp [hc]))
    constructor
    · simp [List.takeWhile_cons, ha, ih1]
    · simp [List.dropWhile_cons, ha, ih2]

theorem parseUnsigned_digits_ex (ip : List Char)
    (hip : ∀ c ∈ ip, isDigitChar c = true) (hne : ip ≠ []) :
    ∃ q, parseUnsigned ip = some q := by
  have hd : ip.dropWhile isDigitChar = [] := List.dropWhile_eq_nil_iff.mpr hip
  have ht : ip.takeWhile isDigitChar = ip := List.takeWhile_eq_self_iff.mpr hip
  unfold parseUnsigned
  rw [hd, ht]
  dsimp only
  cases ip with
  | nil => exact absurd rfl hne
  | cons a t =>
    rw [if_neg (by simp)]
    exact ⟨_, rfl⟩

theorem parseUnsigned_point_ex (ip fp : List Char)
    (hip : ∀ c ∈ ip, isDigitChar c = true) (hfp : ∀ c ∈ fp, isDigitChar c = true)
    (hne : fp ≠ []) : ∃ q, parseUnsigned (ip ++ '.' :: fp) = some q := by
  obtain ⟨ht, hd⟩ := split_digits_point ip fp hip
  unfold parseUnsigned
  rw [hd, ht]
  dsimp only
  rw [if_pos ⟨rfl, List.all_eq_true.mpr (fun c hc => hfp c hc), Or.inr hne⟩]
  exact ⟨_, rfl⟩

theorem parseJsNumber_cons_ne (c : Char) (t : List Char) (hc : c ≠ '-') :
    parseJsNumber (c :: t) = parseUnsigned (c :: t) := by
  unfold parseJsNumber
  split
  · next h => exact List.noConfusion h
  · next rest h =>
    injection h with h1 h2
    exact absurd h1 hc
  · rfl

theorem parseJsNumber_neg_ex (body : List Char) (hne : body ≠ [])
    (hex : ∃ q, parseUnsigned body = some q) :
    ∃ q, parseJsNumber ('-' :: body) = some q := by
  obtain ⟨q, hq⟩ := hex
  cases body with
  | nil => exact absurd rfl hne
  | cons b bt =>
    refine ⟨-q, ?_⟩
    show (parseUnsigned (b :: bt)).map (fun q => -q) = some (-q)
    rw [hq]
    rfl

theorem replaceFirst_not_mem (a b : Char) (l : List Char)
    (h : ∀ c ∈ l, c ≠ a) : replaceFirst a b l = l := by
  induction l with
  | nil => rfl
  | cons c t ih =>
    unfold replaceFirst
    rw [if_neg (h c (by simp))]
    rw [ih (fun x hx => h x (by simp [hx]))]

theorem replaceFirst_append (a b : Char) (pre post : List Char)
    (h : ∀ c ∈ pre, c ≠ a) :
    replaceFirst a b (pre ++ a :: post) = pre ++ b :: post := by
  induction pre with
  | nil =>
    show replaceFirst a b (a :: post) = b :: post
    unfold replaceFirst
    rw [if_pos rfl]
  | cons c t ih =>
    rw [List.cons_append]
    show (if c = a then b :: (t ++ a :: post)
          else c :: replaceFirst a b (t ++ a :: post)) = (c :: t) ++ b :: post
    rw [if_neg (h c (by simp))]
    rw [ih (fun x hx => h x (by simp [hx]))]
    rfl

theorem parseJsNumber_eq_parseUnsigned (s : List Char) (hs : s ≠ [])
    (hhead : s.head? ≠ some '-') : parseJsNumber s = parseUnsigned s := by
  cases s with
  | nil => exact absurd rfl hs
  | cons c t =>
    refine parseJsNumber_cons_ne c t ?_
    intro hx
    exact hhead (by rw [hx]; rfl)

theorem head_ne_dash_digits (ip : List Char)
    (hdig : ∀ c ∈ ip, isDigitChar c = true) : ip.head? ≠ some '-' := by
  cases ip with
  | nil => simp
  | cons d dt =>
    intro hx
    injection hx with hx'
    exact digit_ne_dash (hdig d (by simp)) hx'

theorem head_ne_dash_body (ip rest : List Char) (c0 : Char)
    (hdig : ∀ c ∈ ip, isDigitChar c = true) (hc0 : c0 ≠ '-') :
    (ip ++ c0 :: rest).head? ≠ some '-' := by
  cases ip with
  | nil =>
    intro hx
    injection hx with hx'
    exact hc0 hx'
  | cons d dt =>
    intro hx
    injection hx with hx'
    exact digit_ne_dash (hdig d (by simp)) hx'

theorem signed_digits_no_comma (neg : Bool) (ip : List Char)
    (hdig : ∀ c ∈ ip, isDigitChar c = true) :
    ∀ c ∈ (if neg then '-' :: ip else ip), c ≠ ',' := by
  intro c hc
  cases neg
  · rw [if_neg (by simp)] at hc
    exact digit_ne_comma (hdig c hc)
  · rw [if_pos rfl] at hc
    rcases List.mem_cons.mp hc with rfl | hx
    · decide
    · exact digit_ne_comma (hdig c hx)

theorem parse_signed_digits_ex (neg : Bool) (ip : List Char)
    (hdig : ∀ c ∈ ip, isDigitChar c = true) (hne : ip ≠ []) :
    ∃ q, parseJsNumber (if neg then '-' :: ip else ip) = some q := by
  have hex := parseUnsigned_digits_ex ip hdig hne
  cases neg
  · rw [if_neg (by simp)]
    rw [parseJsNumber_eq_parseUnsigned ip hne (head_ne_dash_digits ip hdig)]
    exact hex
  · rw [if_pos rfl]
    exact parseJsNumber_neg_ex ip hne hex

theorem parse_signed_point_ex (neg : Bool) (ip fp : List Char)
    (hdig : ∀ c ∈ ip, isDigitChar c = true) (hfd : ∀ c ∈ fp, isDigitChar c = true)
    (hfne : fp ≠ []) :
    ∃ q, parseJsNumber (if neg then '-' :: (ip ++ '.' :: fp) else ip ++ '.' :: fp) = some q := by
  have hex := parseUnsigned_point_ex ip fp hdig hfd hfne
  cases neg
  · rw [if_neg (by simp)]
    rw [parseJsNumber_eq_parseUnsigned _ (by simp) (head_ne_dash_body ip fp '.' hdig (by decide))]
    exact hex
  · rw [if_pos rfl]
    exact parseJsNumber_neg_ex _ (by simp) hex

theorem replaceFirst_signed (neg : Bool) (ip post : List Char)
    (hdig : ∀ c ∈ ip, isDigitChar c = true) :
    replaceFirst ',' '.' (if neg then '-' :: (ip ++ ',' :: post) else ip ++ ',' :: post) =
      (if neg then '-' :: (ip ++ '.' :: post) else ip ++ '.' :: post) := by
  have hpre : ∀ c ∈ ip, c ≠ ',' := fun c hc => digit_ne_comma (hdig c hc)
  cases neg
  · rw [if_neg (by simp), if_neg (by simp)]
    exact replaceFirst_append ',' '.' ip post hpre
  · rw [if_pos rfl, if_pos rfl]
    unfold replaceFirst
    rw [if_neg (by decide : ¬('-' = ','))]
    rw [replaceFirst_append ',' '.' ip post hpre]

theorem accepted_parses (cfg : ValidatorConfig) (convert : Bool) (input v : List Char)
    (hcv : cfg.decimalSeparator = none ∨ cfg.decimalSeparator = some '.' ∨
      cfg.decimalSeparator = some ',')
    (h : validateNAS cfg convert input = Except.ok v) :
    ∃ q, numberFromString cfg v = some q := by
  obtain ⟨r, hscan, hpol⟩ := validateNAS_ok_inv cfg convert input v h
  obtain ⟨hv, hnn, hdig, hfd, hdisj⟩ := scan_sound v r hscan
  obtain ⟨-, -, -, hsepinv⟩ := policy_ok_inv cfg v r v hpol
  rcases hdisj with ⟨sc, hsep, hsc⟩ | ⟨hsep, hfpnil⟩
  · obtain ⟨hlen, flag, hflag, hnc, hnp⟩ := hsepinv sc hsep
    have hfne : r.fractionalPart ≠ [] := by
      intro hx
      rw [hx] at hlen
      exact hlen rfl
    have hbody : bodyOf r = r.integerPart ++ sc :: r.fractionalPart := by
      unfold bodyOf
      rw [hsep]
    rcases hcv with hnone | hpoint | hcomma
    · rw [hnone] at hflag
      cases hflag
    · rw [hpoint] at hflag
      injection hflag with hflag'
      subst hflag'
      have hsceq : sc = '.' := by
        by_contra hx
        exact hnp ⟨rfl, hx⟩
      subst hsceq
      unfold numberFromString
      rw [if_neg (by rw [hpoint]; simp)]
      rw [hv, hbody]
      exact parse_signed_point_ex r.negative _ _ hdig hfd hfne
    · rw [hcomma] at hflag
      injection hflag with hflag'
      subst hflag'
      have hsceq : sc = ',' := by
        by_contra hx
        exact hnc ⟨rfl, hx⟩
      subst hsceq
      unfold numberFromString
      rw [if_pos hcomma]
      rw [hv, hbody]
      rw [replaceFirst_signed r.negative _ _ hdig]
      exact parse_signed_point_ex r.negative _ _ hdig hfd hfne
  · have hbody : bodyOf r = r.integerPart := by
      unfold bodyOf
      rw [hsep]
      exact List.append_nil _
    have hipne : r.integerPart ≠ [] := by
      rw [← hbody]
      exact hnn
    unfold numberFromString
    by_cases hcf : cfg.decimalSeparator = some ','
    · rw [if_pos hcf]
      rw [hv, hbody]
      rw [replaceFirst_not_mem ',' '.' _ (signed_digits_no_comma r.negative _ hdig)]
      exact parse_signed_digits_ex r.negative _ hdig hipne
    · rw [if_neg hcf]
      rw [hv, hbody]
      exact parse_signed_digits_ex r.negative _ hdig hipne

/-- C10: every string the validator accepts contains at most one separator
character ('.' or ','), and the numeric coercion — which replaces only the
first comma before parsing — converts the entire accepted string to a
number (never NaN). -/
theorem accepted_single_separator (cfg : ValidatorConfig) (convert : Bool)
    (input v : List Char)
    (hcv : cfg.decimalSeparator = none ∨ cfg.decimalSeparator = some '.' ∨
      cfg.decimalSeparator = some ',')
    (h : validateNAS cfg convert input = Except.ok v) :
    v.countP isSepChar ≤ 1 ∧ ∃ q, numberFromString cfg v = some q := by
  refine ⟨?_, accepted_parses cfg convert input v hcv h⟩
  obtain ⟨r, hscan, hpol⟩ := validateNAS_ok_inv cfg convert input v h
  obtain ⟨hv, hnn, hdig, hfd, hdisj⟩ := scan_sound v r hscan
  have hipz : r.integerPart.countP isSepChar = 0 := by
    rw [List.countP_eq_zero]
    intro c hc
    simp [digit_not_sep (hdig c hc)]
  have hfpz : r.fractionalPart.countP isSepChar = 0 := by
    rw [List.countP_eq_zero]
    intro c hc
    simp [digit_not_sep (hfd c hc)]
  have hbody : (bodyOf r).countP isSepChar ≤ 1 := by
    unfold bodyOf
    rcases hdisj with ⟨sc, hsep, hsc⟩ | ⟨hsep, -⟩ <;> rw [hsep]
    · rw [List.countP_append, hipz, List.countP_cons, hfpz]
      split_ifs
      all_goals simp
    · rw [List.countP_append, hipz]
      simp
  rw [hv]
  cases r.negative
  · rw [if_neg (by simp)]
    exact hbody
  · rw [if_pos rfl]
    rw [List.countP_cons]
    have hdash : isSepChar '-' = false := by decide
    rw [hdash]
    simpa using hbody

/-- Witness for C10 at the accepted input "1,5" under a comma-separator
configuration. -/
theorem accepted_single_separator_witness :
    ("1,5".toList.countP isSepChar ≤ 1) ∧
    ∃ q, numberFromString ⟨some ',', none, none⟩ "1,5".toList = some q :=
  accepted_single_separator ⟨some ',', none, none⟩ false "1,5".toList "1,5".toList
    (Or.inr (Or.inr rfl)) rfl

/-- C5: for every accepted string and every limit, min passes iff the
coerced value is at least the limit, max iff at most, greater iff strictly
above, less iff strictly below; each rule returns the string unchanged on
success and signals its own reason on failure.  In particular, with
separator ',' and limit 10.2 (the rational 51/5), "10,20" passes min and
"10,19999" fails it. -/
theorem rangeRules_semantics :
    (∀ (cfg : ValidatorConfig) (v : List Char) (l : ℚ),
      (cfg.decimalSeparator = none ∨ cfg.decimalSeparator = some '.' ∨
        cfg.decimalSeparator = some ',') →
      validateNAS cfg false v = Except.ok v →
      ∃ q, numberFromString cfg v = some q ∧
        minRule l cfg v = (if q ≥ l then Except.ok v else Except.error Reason.min) ∧
        maxRule l cfg v = (if q ≤ l then Except.ok v else Except.error Reason.max) ∧
        greaterRule l cfg v = (if q > l then Except.ok v else Except.error Reason.greater) ∧
        lessRule l cfg v = (if q < l then Except.ok v else Except.error Reason.less)) ∧
    validateNAS ⟨some ',', none, none⟩ false "10,20".toList = Except.ok "10,20".toList ∧
    validateNAS ⟨some ',', none, none⟩ false "10,19999".toList = Except.ok "10,19999".toList ∧
    minRule (mkRat 51 5) ⟨some ',', none, none⟩ "10,20".toList = Except.ok "10,20".toList ∧
    minRule (mkRat 51 5) ⟨some ',', none, none⟩ "10,19999".toList = Except.error Reason.min ∧
    (mkRat 51 5 : ℚ) = 51 / 5 := by
  refine ⟨?_, rfl, rfl, rfl, rfl, by norm_num [mkRat, Rat.normalize]⟩
  intro cfg v l hcv hacc
  obtain ⟨q, hq⟩ := accepted_parses cfg false v v hcv hacc
  refine ⟨q, hq, ?_, ?_, ?_, ?_⟩
  · unfold minRule
    rw [hq]
  · unfold maxRule
    rw [hq]
  · unfold greaterRule
    rw [hq]
  · unfold lessRule
    rw [hq]

/-- Witness for C5 at the accepted input "10,20" under a comma-separator
configuration with limit 51/5. -/
theorem rangeRules_semantics_witness :
    ∃ q, numberFromString ⟨some ',', none, none⟩ "10,20".toList = some q ∧
      minRule (mkRat 51 5) ⟨some ',', none, none⟩ "10,20".toList =
        (if q ≥ mkRat 51 5 then Except.ok "10,20".toList else Except.error Reason.min) ∧
      maxRule (mkRat 51 5) ⟨some ',', none, none⟩ "10,20".toList =
        (if q ≤ mkRat 51 5 then Except.ok "10,20".toList else Except.error Reason.max) ∧
      greaterRule (mkRat 51 5) ⟨some ',', none, none⟩ "10,20".toList =
        (if q > mkRat 51 5 then Except.ok "10,20".toList else Except.error Reason.greater) ∧
      lessRule (mkRat 51 5) ⟨some ',', none, none⟩ "10,20".toList =
        (if q < mkRat 51 5 then Except.ok "10,20".toList else Except.error Reason.less) :=
  rangeRules_semantics.1 ⟨some ',', none, none⟩ "10,20".toList (mkRat 51 5)
    (Or.inr (Or.inr rfl)) rfl

theorem firstHitResult_cons (b : Bool) (reason : Reason)
    (rest : List (Bool × Reason)) (w : List Char) :
    firstHitResult ((b, reason) :: rest) w =
      if b then Except.error reason else firstHitResult rest w := by
  unfold firstHitResult
  by_cases hb : b = true
  · simp [firstHit, hb]
  · simp [firstHit, hb]

theorem policyTail_eq_firstHit (cfg : ValidatorConfig) (w : List Char) (r : ScanResult) :
    policyTail cfg w r =
      firstHitResult [(condLeadingZero r, Reason.leadingZero),
                      (condNegativeZero cfg w r, Reason.negativeZero),
                      (condMaxExceeded cfg r, Reason.maxDecimals),
                      (condMinNotMet cfg r, Reason.minDecimals)] w := by
  rw [firstHitResult_cons, firstHitResult_cons, firstHitResult_cons, firstHitResult_cons]
  unfold policyTail condLeadingZero condNegativeZero condMaxExceeded condMinNotMet
  by_cases h1 : r.wrongLeadingZero = true
  · rw [if_pos h1, if_pos h1]
  · rw [if_neg h1, if_neg h1]
    by_cases h2 : r.negative = true ∧ numberFromString cfg w = some 0
    · have h2b : (r.negative && decide (numberFromString cfg w = some 0)) = true := by
        simp only [Bool.and_eq_true, decide_eq_true_eq]
        exact h2
      rw [if_pos h2, if_pos h2b]
    · have h2b : ¬((r.negative && decide (numberFromString cfg w = some 0)) = true) := by
        simp only [Bool.and_eq_true, decide_eq_true_eq]
        exact h2
      rw [if_neg h2, if_neg h2b]
      by_cases h3 : decGTFlag r.fractionalPart.length cfg.maxDecimals = true
      · rw [if_pos h3, if_pos h3]
      · rw [if_neg h3, if_neg h3]
        by_cases h4 : decLTFlag r.fractionalPart.length cfg.minDecimals = true
        · rw [if_pos h4, if_pos h4]
        · rw [if_neg h4, if_neg h4]
          rfl

theorem policy_eq_firstHit (cfg : ValidatorConfig) (w : List Char) (r : ScanResult)
    (hcv : cfg.decimalSeparator = none ∨ cfg.decimalSeparator = some '.' ∨
      cfg.decimalSeparator = some ',')
    (hfp : r.separatorChar.isSome = true → r.fractionalPart ≠ []) :
    policy cfg w r = firstHitResult (orderedChecks cfg w r) w := by
  unfold orderedChecks
  rw [firstHitResult_cons, firstHitResult_cons]
  cases hsep : r.separatorChar with
  | none =>
    simp only [policy, hsep]
    have h1 : condNoDecimals cfg r = false := by
      simp [condNoDecimals, hsep]
    have h2 : condWrongSeparator cfg r = false := by
      simp [condWrongSeparator, hsep]
    have hn1 : ¬(condNoDecimals cfg r = true) := by simp [h1]
    have hn2 : ¬(condWrongSeparator cfg r = true) := by simp [h2]
    rw [if_neg hn1, if_neg hn2]
    exact policyTail_eq_firstHit cfg w r
  | some sc =>
    have hz : ¬(r.fractionalPart.length = 0) := by
      intro hx
      exact hfp (by rw [hsep]; rfl) (List.length_eq_zero.mp hx)
    simp only [policy, hsep]
    rw [if_neg hz]
    rcases hcv with hnone | hpoint | hcomma
    · rw [hnone]
      have h1 : condNoDecimals cfg r = true := by
        simp [condNoDecimals, hsep, hnone]
      rw [if_pos h1]
    · rw [hpoint]
      dsimp only
      have h1 : condNoDecimals cfg r = false := by
        simp [condNoDecimals, hpoint]
      have hn1 : ¬(condNoDecimals cfg r = true) := by simp [h1]
      rw [if_neg hn1]
      by_cases hw : sc = '.'
      · subst hw
        have hna : ¬(('.' : Char) = ',' ∧ ('.' : Char) ≠ '.') := by simp
        have hnb : ¬(('.' : Char) = '.' ∧ ('.' : Char) ≠ '.') := by simp
        rw [if_neg hna, if_neg hnb]
        have h2 : condWrongSeparator cfg r = false := by
          simp [condWrongSeparator, hsep, hpoint]
        have hn2 : ¬(condWrongSeparator cfg r = true) := by simp [h2]
        rw [if_neg hn2]
        exact policyTail_eq_firstHit cfg w r
      · have hna : ¬(('.' : Char) = ',' ∧ sc ≠ '.') := by simp
        have hpb : ('.' : Char) = '.' ∧ sc ≠ '.' := ⟨rfl, hw⟩
        rw [if_neg hna, if_pos hpb]
        have h2 : condWrongSeparator cfg r = true := by
          simp [condWrongSeparator, hsep, hpoint, hw]
        rw [if_pos h2]
        unfold wrongSeparatorReason
        have hnp : ¬(cfg.decimalSeparator = some ',') := by
          rw [hpoint]
          simp
        rw [if_neg hnp]
    · rw [hcomma]
      dsimp only
      have h1 : condNoDecimals cfg r = false := by
        simp [condNoDecimals, hcomma]
      have hn1 : ¬(condNoDecimals cfg r = true) := by simp [h1]
      rw [if_neg hn1]
      by_cases hw : sc = ','
      · subst hw
        have hna : ¬((',' : Char) = ',' ∧ (',' : Char) ≠ ',') := by simp
        have hnb : ¬((',' : Char) = '.' ∧ (',' : Char) ≠ ',') := by simp
        rw [if_neg hna, if_neg hnb]
        have h2 : condWrongSeparator cfg r = false := by
          simp [condWrongSeparator, hsep, hcomma]
        have hn2 : ¬(condWrongSeparator cfg r = true) := by simp [h2]
        rw [if_neg hn2]
        exact policyTail_eq_firstHit cfg w r
      · have hpa : (',' : Char) = ',' ∧ sc ≠ ',' := ⟨rfl, hw⟩
        rw [if_pos hpa]
        have h2 : condWrongSeparator cfg r = true := by
          simp [condWrongSeparator, hsep, hcomma, hw]
        rw [if_pos h2]
        unfold wrongSeparatorReason
        rw [if_pos hcomma]

/-- C1: a validate call reports at most one rejection reason — its result
is a single `Except` value — and for every input whose scan succeeds (with
a nonempty fractional part whenever a separator is present, which is all
the scanner can produce without a not-a-number failure) the reported
reason is the first matching check of the fixed order: separator-presence
checks (no decimals allowed / wrong separator), then leading zero, then
negative zero, then max decimals exceeded, then min decimals not met. -/
theorem validate_first_matching_reason (cfg : ValidatorConfig) (convert : Bool)
    (input : List Char) (r : ScanResult)
    (hcv : cfg.decimalSeparator = none ∨ cfg.decimalSeparator = some '.' ∨
      cfg.decimalSeparator = some ',')
    (hscan : scan (if convert then jsTrim input else input) = some r)
    (hfp : r.separatorChar.isSome = true → r.fractionalPart ≠ []) :
    validateNAS cfg convert input =
      firstHitResult (orderedChecks cfg (if convert then jsTrim input else input) r)
        (if convert then jsTrim input else input) := by
  simp only [validateNAS]
  rw [hscan]
  exact policy_eq_firstHit cfg _ r hcv hfp

/-- Witness for C1 at input "-00.0" with no configured separator and
decimal bounds 3/0: five rejection conditions hold at once (no decimals
allowed, leading zero, negative zero, max decimals, min decimals) and the
first of the fixed order, noDecimals, is reported. -/
theorem validate_first_matching_reason_witness :
    validateNAS ⟨none, some 3, some 0⟩ false "-00.0".toList =
      firstHitResult
        (orderedChecks ⟨none, some 3, some 0⟩ "-00.0".toList
          ⟨true, ['0', '0'], some '.', ['0'], true⟩)
        "-00.0".toList ∧
    condNoDecimals ⟨none, some 3, some 0⟩ ⟨true, ['0', '0'], some '.', ['0'], true⟩ = true ∧
    condLeadingZero ⟨true, ['0', '0'], some '.', ['0'], true⟩ = true ∧
    condNegativeZero ⟨none, some 3, some 0⟩ "-00.0".toList
      ⟨true, ['0', '0'], some '.', ['0'], true⟩ = true ∧
    condMaxExceeded ⟨none, some 3, some 0⟩ ⟨true, ['0', '0'], some '.', ['0'], true⟩ = true ∧
    condMinNotMet ⟨none, some 3, some 0⟩ ⟨true, ['0', '0'], some '.', ['0'], true⟩ = true ∧
    validateNAS ⟨none, some 3, some 0⟩ false "-00.0".toList = Except.error Reason.noDecimals :=
  ⟨validate_first_matching_reason ⟨none, some 3, some 0⟩ false "-00.0".toList
      ⟨true, ['0', '0'], some '.', ['0'], true⟩ (Or.inl rfl) (by decide) (by decide),
   by decide, by decide, by decide, by decide, by decide, rfl⟩
